import Mathlib

/-!
Verification of the exif-namer core (`src/main.rs`): a shallow embedding of
the property-value model, sanitization, the action executor, the per-run
loop with its index counter, the empty-directory cleanup pass, and the
property extractor, together with theorems settling the specification
claims about them.
-/

set_option linter.unusedVariables false
set_option maxRecDepth 8192

namespace ExifNamer

/-- Mirrors `enum Mode { Move, Copy, SymLink, HardLink, Info }`. -/
inductive Mode where
  | move
  | copy
  | symLink
  | hardLink
  | info
deriving DecidableEq

/-- Abstract `chrono::NaiveDateTime` (naive local date-time); its internals are
external to the core, so it is an opaque-but-concrete wrapper. -/
structure Timestamp where
  tick : Nat
deriving DecidableEq

/-- Abstract `f64`; the core never computes with floats, it only formats them
through the external `Display` implementation, so the payload is opaque. -/
structure F64 where
  bits : Nat
deriving DecidableEq

/-- Mirrors `enum PropertyValue`.  The `path` payload is the result of
`PathBuf::to_str()`: `some s` when the path is representable as a platform
string, `none` otherwise. -/
inductive PropertyValue where
  | text (s : String)
  | path (pstr : Option String)
  | timestamp (t : Timestamp)
  | integer (n : Int)
  | fraction (num den : Int)
  | real (r : F64)
  | nothing
deriving DecidableEq

/-- One pass of `Regex::replace_all` for a character-class-run pattern such as
the default `[^\w\+\-]+`: every maximal nonempty run of characters matched by
`bad` is replaced by `repl`.  The boolean flag records whether the previous
character belonged to the run currently being replaced. -/
def replaceRuns (bad : Char → Bool) (repl : List Char) : Bool → List Char → List Char
  | _, [] => []
  | inRun, c :: rest =>
    if bad c then (if inRun then [] else repl) ++ replaceRuns bad repl true rest
    else c :: replaceRuns bad repl false rest

/-- `ExifAttrFormatter::sanitize_value`: replace every run matching the
configured pattern with the configured replacement string.  The configured
pattern is an arbitrary regex; this embedding covers the
character-class-run patterns `[C]+` (the form of the default
`[^\w\+\-]+`), as the class `bad`.  `replaceAllLit` below covers literal
patterns, used to delimit how far sanitizer idempotence extends. -/
def sanitize_value (bad : Char → Bool) (repl : String) (s : String) : String :=
  ⟨replaceRuns bad repl.data false s.data⟩

/-- Match a literal pattern at the head of the input: `some rest` when every
pattern character matches, with `rest` the unmatched remainder. -/
def dropPre? : List Char → List Char → Option (List Char)
  | [], s => some s
  | _ :: _, [] => none
  | p :: ps, c :: cs => if c = p then dropPre? ps cs else none

/-- `Regex::replace_all` for a nonempty literal-string pattern
(non-overlapping, leftmost-first), fuel-bounded: the fuel `s.length`
suffices because every step consumes at least one input character. -/
def replaceAllLitAux (pat repl : List Char) : Nat → List Char → List Char
  | 0, s => s
  | _ + 1, [] => []
  | fuel + 1, c :: rest =>
    match dropPre? pat (c :: rest) with
    | some rest' => repl ++ replaceAllLitAux pat repl fuel rest'
    | none => c :: replaceAllLitAux pat repl fuel rest

/-- One `Regex::replace_all` pass for a nonempty literal-string pattern. -/
def replaceAllLit (pat repl s : String) : String :=
  ⟨replaceAllLitAux pat.data repl.data s.data.length s.data⟩

/-- `\w` of the key-sanitizer regex `\W+`, in its ASCII approximation (the
Unicode `\w` class is larger); the theorems below quantify over the whole
class, so the approximation only touches concrete instances, which are
ASCII. -/
def isWordChar (c : Char) : Bool := c.isAlphanum || c = '_'

/-- `ExifAttrFormatter::sanitize_key`: strip every run of non-word characters
(replace with the empty string). -/
def sanitize_key (s : String) : String :=
  sanitize_value (fun c => !isWordChar c) "" s

/-- Mirrors `struct ExifAttrFormatter`.  The chrono `format` call and the
`Display for f64` rendering are external capabilities, carried as fields. -/
structure ExifAttrFormatter where
  dateTimeFormat : String
  chronoFormat : String → Timestamp → String
  floatFormat : F64 → String
  badValueChar : Char → Bool
  sanitizeReplacement : String

/-- `ExifAttrFormatter::fmt`: the per-variant string form of a `PropertyValue`. -/
def ExifAttrFormatter.fmt (F : ExifAttrFormatter) : PropertyValue → String
  | .text s => s
  | .path p => p.getD ""
  | .timestamp t => F.chronoFormat F.dateTimeFormat t
  | .integer n => toString n
  | .fraction num den => toString num ++ "_" ++ toString den
  | .real r => F.floatFormat r
  | .nothing => ""

/-- `ExifAttrFormatter::as_string`: format the value, then sanitize the result
unless the value is `Path`-typed. -/
def ExifAttrFormatter.as_string (F : ExifAttrFormatter) (v : PropertyValue) : String :=
  match v with
  | .path _ => F.fmt v
  | _ => sanitize_value F.badValueChar F.sanitizeReplacement (F.fmt v)

/-- For general regex patterns an unmatched replacement does not rescue
idempotence: with the literal pattern `ab` and the empty replacement (which
trivially contains no matched character), one `replace_all` pass turns
`"aabb"` into `"ab"` and a second pass into `""`.  This delimits the C6
amendment to character-class-run patterns. -/
theorem replaceAllLit_not_idempotent :
    replaceAllLit "ab" "" "aabb" = "ab"
    ∧ replaceAllLit "ab" "" (replaceAllLit "ab" "" "aabb") = "" := by decide

/-- C7: the string form of every `PropertyValue` follows the per-variant
rules — `Text` verbatim, `Path` as its platform string (empty when not
representable), `Timestamp` per the configured pattern, `Integer` in decimal,
`Fraction(n, d)` as `n_d` without reduction, `Real` via the external decimal
rendering, `Nothing` as the empty string — and `as_string` applies the value
sanitizer to every formatted value except `Path`-typed values, which are
returned unsanitized. -/
theorem c7_formatting_rules (F : ExifAttrFormatter) :
    (∀ s, F.as_string (.text s)
        = sanitize_value F.badValueChar F.sanitizeReplacement s)
    ∧ (∀ s, F.as_string (.path (some s)) = s)
    ∧ (F.as_string (.path none) = "")
    ∧ (∀ t, F.as_string (.timestamp t)
        = sanitize_value F.badValueChar F.sanitizeReplacement
            (F.chronoFormat F.dateTimeFormat t))
    ∧ (∀ n, F.as_string (.integer n)
        = sanitize_value F.badValueChar F.sanitizeReplacement (toString n))
    ∧ (∀ num den, F.as_string (.fraction num den)
        = sanitize_value F.badValueChar F.sanitizeReplacement
            (toString num ++ "_" ++ toString den))
    ∧ (∀ r, F.as_string (.real r)
        = sanitize_value F.badValueChar F.sanitizeReplacement (F.floatFormat r))
    ∧ (F.as_string .nothing
        = sanitize_value F.badValueChar F.sanitizeReplacement "")
    ∧ (∀ p, F.as_string (.path p) = F.fmt (.path p)) :=
  ⟨fun _ => rfl, fun _ => rfl, rfl, fun _ => rfl, fun _ => rfl,
   fun _ _ => rfl, fun _ => rfl, rfl, fun _ => rfl⟩

/-- UTF-8 byte length of a string's characters (Rust `str::len`). -/
def utf8Len (l : List Char) : Nat := (l.map Char.utf8Size).sum

/-- Rust byte slicing `&s[..n]`: the characters of the first `n` bytes when
`n` falls on a character boundary, `none` (a panic) otherwise. -/
def takeBytes : List Char → Nat → Option (List Char)
  | _, 0 => some []
  | [], _ + 1 => none
  | c :: rest, n + 1 =>
    if c.utf8Size ≤ n + 1 then (takeBytes rest (n + 1 - c.utf8Size)).map (c :: ·)
    else none

/-- Rust byte slicing `&s[n..]`: the characters after the first `n` bytes when
`n` falls on a character boundary, `none` (a panic) otherwise. -/
def dropBytes : List Char → Nat → Option (List Char)
  | l, 0 => some l
  | [], _ + 1 => none
  | c :: rest, n + 1 =>
    if c.utf8Size ≤ n + 1 then dropBytes rest (n + 1 - c.utf8Size)
    else none

/-- The Info-mode display line for one property (the `Mode::Info` arm of
`apply_mode`): values whose byte length exceeds the positive
`max_display_len` are elided in the middle, keeping `max_display_len / 2`
bytes of prefix and suffix, annotated with the total length; `none` models
the panic of `&str` byte slicing at a non-boundary index. -/
def infoDisplayLine (maxDisplayLen : Nat) (key value : String) : Option String :=
  let cs := value.data
  let len := utf8Len cs
  if maxDisplayLen > 0 ∧ len > maxDisplayLen then
    match takeBytes cs (maxDisplayLen / 2), dropBytes cs (len - maxDisplayLen / 2) with
    | some pre, some suf =>
      some ("\x7b\x7b" ++ key ++ "\x7d\x7d \"" ++ (⟨pre⟩ : String) ++ " ... "
        ++ (⟨suf⟩ : String) ++ "\" (" ++ toString len ++ " chars total)")
    | _, _ => none
  else
    some ("\x7b\x7b" ++ key ++ "\x7d\x7d \"" ++ value ++ "\"")

/-- C10: Info-mode truncation is not total.  For a property value of forty
`'€'` characters (120 UTF-8 bytes) and the default `max_display_len = 100`,
the slice boundary at byte 50 falls inside a character, so producing the
displayed form panics (`none`), contradicting the claim that the slice
boundaries always fall on character boundaries for every string. -/
theorem c10_truncation_panics_on_multibyte :
    infoDisplayLine 100 "Tag" ⟨List.replicate 40 '€'⟩ = none
    ∧ infoDisplayLine 100 "Tag" ⟨List.replicate 120 'x'⟩ ≠ none := by decide

/-- The configuration surface of one run (`struct Args`, fixed after startup). -/
structure RunArgs where
  mode : Mode
  dryRun : Bool
  force : Bool
  verbose : Bool
  deleteEmptyDirs : Bool
  forceAbsoluteSymlinks : Bool
  maxDisplayLen : Nat
  idxStart : Nat
  idxWidth : Nat
deriving DecidableEq

/-- The filesystem facts `apply_mode` queries for one (source, destination)
pair, and whether each syscall it may attempt fails. -/
structure FileWorld where
  sameFile : Bool
  destExists : Bool
  destIsSymlink : Bool
  removeFails : Bool
  parentMissing : Bool
  createFails : Bool
  mutateFails : Bool
deriving DecidableEq

/-- The successful filesystem mutations `apply_mode` can perform. -/
inductive FsEvent where
  | removeFile
  | createDirAll
  | rename
  | copyFile
  | symlink
  | hardLink
deriving DecidableEq

/-- The mode-specific mutation of `apply_mode` (the final `match`): the
syscall's successful effect, or nothing when the syscall fails (the error is
only logged).  `Info` prints and performs no mutation. -/
def mutationEvents (a : RunArgs) (w : FileWorld) : List FsEvent :=
  match a.mode with
  | .move => if w.mutateFails then [] else [.rename]
  | .copy => if w.mutateFails then [] else [.copyFile]
  | .symLink => if w.mutateFails then [] else [.symlink]
  | .hardLink => if w.mutateFails then [] else [.hardLink]
  | .info => []

/-- The tail of `apply_mode` after the identity/existence checks: the dry-run
early return, then creation of the destination's missing parent directory,
then the mode-specific mutation. -/
def applyTail (a : RunArgs) (w : FileWorld) : List FsEvent :=
  if a.dryRun then []
  else if w.parentMissing then
    if w.createFails then [] else FsEvent.createDirAll :: mutationEvents a w
  else mutationEvents a w

/-- `App::apply_mode`: for non-Info modes, skip when source and destination
are the same file; when the destination exists (or is a symlink), remove it
first under `--force` (skipping the file if removal fails) or skip with a
warning; then the dry-run check, parent-directory creation, and the
mode-specific mutation.  The result is the list of successful filesystem
mutations, in order. -/
def apply_mode (a : RunArgs) (w : FileWorld) : List FsEvent :=
  if a.mode = .info then []
  else if w.sameFile then []
  else if w.destExists || w.destIsSymlink then
    if a.force then
      if w.removeFails then [] else FsEvent.removeFile :: applyTail a w
    else []
  else applyTail a w

/-- Dry-run arguments with `--force`: `-m mv -n -f`. -/
def c4Args : RunArgs :=
  { mode := .move, dryRun := true, force := true, verbose := false,
    deleteEmptyDirs := false, forceAbsoluteSymlinks := false,
    maxDisplayLen := 100, idxStart := 0, idxWidth := 6 }

/-- A file whose destination already exists, with every syscall succeeding. -/
def c4World : FileWorld :=
  { sameFile := false, destExists := true, destIsSymlink := false,
    removeFails := false, parentMissing := false, createFails := false,
    mutateFails := false }

/-- C4: in dry-run mode with `--force` and an existing destination,
`apply_mode` removes the destination file — a real
filesystem change — because the force-removal step runs before the dry-run
check; it does stop before directory creation and the move itself, but the
run is not mutation-free, contradicting the claim (and the program's own
`--dry_run` help text, "Do not apply any changes to the filesystem"). -/
theorem c4_dry_run_force_removes_destination :
    apply_mode c4Args c4World = [FsEvent.removeFile]
    ∧ apply_mode c4Args c4World ≠ [] := by decide

instance {ε α : Type} [DecidableEq ε] [DecidableEq α] : DecidableEq (Except ε α) :=
  fun a b =>
    match a, b with
    | .ok x, .ok y =>
      if h : x = y then isTrue (by rw [h]) else isFalse (by intro hh; cases hh; exact h rfl)
    | .error x, .error y =>
      if h : x = y then isTrue (by rw [h]) else isFalse (by intro hh; cases hh; exact h rfl)
    | .ok _, .error _ => isFalse (by intro h; cases h)
    | .error _, .ok _ => isFalse (by intro h; cases h)

/-- One file matched by a glob pattern, together with the outcomes of the
external steps taken for it: whether `path.is_file()` held, the property
strings extracted for it, the handlebars render outcome, and the filesystem
facts seen by `apply_mode`. -/
structure FileSpec where
  path : List String
  isFile : Bool
  props : List (String × String)
  render : Except Unit (List String)
  world : FileWorld
deriving DecidableEq

/-- One entry yielded by glob expansion: a readable path, or a per-match
read error (`Err` from the glob iterator). -/
inductive GlobEntry where
  | ok (f : FileSpec)
  | readErr
deriving DecidableEq

/-- One glob pattern: `error` models a syntactically invalid pattern
(`PatternError` from `glob::glob`), `ok` the ordered entry sequence. -/
structure PatternInput where
  entries : Except Unit (List GlobEntry)
deriving DecidableEq

/-- Whether the pattern itself is syntactically valid. -/
def isOkPattern (p : PatternInput) : Bool :=
  match p.entries with
  | .ok _ => true
  | .error _ => false

/-- `App::find_matches`: propagate a pattern error; otherwise keep the
entries that expanded successfully and are files, logging and skipping
per-match errors. -/
def find_matches (p : PatternInput) : Except Unit (List FileSpec) :=
  match p.entries with
  | .error e => .error e
  | .ok es => .ok (es.filterMap fun e =>
      match e with
      | .ok f => if f.isFile then some f else none
      | .readErr => none)

/-- The files a valid pattern contributes (empty for an invalid pattern). -/
def matchedFiles (p : PatternInput) : List FileSpec :=
  match find_matches p with
  | .ok fs => fs
  | .error _ => []

/-- Rust's `format!("{:01$}", idx, width)`: decimal form of the index,
left-padded with zeros to the configured width. -/
def padZero (width : Nat) (s : String) : String :=
  if s.length < width then (⟨List.replicate (width - s.length) '0'⟩ : String) ++ s else s

/-- The record of processing one file inside `apply_matches`: the data map
handed to the renderer (property strings plus the `SysIdx` entry), and the
successful filesystem mutations performed for the file. -/
structure FileStep where
  path : List String
  idxString : String
  data : List (String × String)
  events : List FsEvent
deriving DecidableEq

/-- The body of the `apply_matches` loop for one file: insert the zero-padded
index under `SysIdx`, then render; on render success run `apply_mode`, on
render failure only log. -/
def processFile (a : RunArgs) (f : FileSpec) (idx : Nat) : FileStep :=
  let idxString := padZero a.idxWidth (toString idx)
  let data := f.props ++ [("SysIdx", idxString)]
  let events :=
    match f.render with
    | .ok _ => apply_mode a f.world
    | .error _ => []
  { path := f.path, idxString := idxString, data := data, events := events }

/-- `App::apply_matches`: process the pattern's files in match order,
incrementing the shared index counter once per file; returns the per-file
records and the final counter value. -/
def apply_matches (a : RunArgs) : List FileSpec → Nat → List FileStep × Nat
  | [], idx => ([], idx)
  | f :: fs, idx =>
    let st := processFile a f idx
    let rest := apply_matches a fs (idx + 1)
    (st :: rest.1, rest.2)

/-- One observable step of `App::run`: a processed file, a cleanup pass over
the sources of one pattern, or the `expect` panic on a pattern error. -/
inductive RunStep where
  | file (st : FileStep)
  | cleanupPass (sources : List (List String))
  | aborted
deriving DecidableEq

/-- `App::run` from a given counter value: for each pattern in turn, expand
it (an invalid pattern panics via `expect`, aborting the whole run), process
its matches, and — when the mode is Move and `--delete_empty_dirs` is set —
run the cleanup pass over this pattern's sources before moving to the next
pattern. -/
def runFrom (a : RunArgs) : List PatternInput → Nat → List RunStep
  | [], _ => []
  | p :: ps, idx =>
    match find_matches p with
    | .error _ => [RunStep.aborted]
    | .ok files =>
      let r := apply_matches a files idx
      (r.1.map RunStep.file)
        ++ (if a.mode = .move ∧ a.deleteEmptyDirs then
              [RunStep.cleanupPass (files.map (·.path))] else [])
        ++ runFrom a ps r.2

/-- `App::run`: the whole invocation, starting the index counter at
`idx_start`. -/
def runApp (a : RunArgs) (patterns : List PatternInput) : List RunStep :=
  runFrom a patterns a.idxStart

/-- The processed-file records of a run trace, in order. -/
def fileSteps (steps : List RunStep) : List FileStep :=
  steps.filterMap fun s =>
    match s with
    | .file st => some st
    | _ => none

/-- The cleanup passes of a run trace, in order (each with the source paths
it was handed). -/
def cleanupPasses (steps : List RunStep) : List (List (List String)) :=
  steps.filterMap fun s =>
    match s with
    | .cleanupPass ps => some ps
    | _ => none

lemma apply_matches_spec (a : RunArgs) :
    ∀ (files : List FileSpec) (idx : Nat),
      ((apply_matches a files idx).1.map (·.idxString)
        = (List.range' idx files.length).map fun i => padZero a.idxWidth (toString i))
      ∧ (apply_matches a files idx).2 = idx + files.length := by
  intro files
  induction files with
  | nil => intro idx; simp [apply_matches]
  | cons f fs ih =>
    intro idx
    have h := ih (idx + 1)
    constructor
    · simp only [apply_matches, List.map_cons, List.length_cons, List.range'_succ, h.1]
      rfl
    · simp only [apply_matches, List.length_cons, h.2]
      omega

lemma fileSteps_append (xs ys : List RunStep) :
    fileSteps (xs ++ ys) = fileSteps xs ++ fileSteps ys := by
  simp [fileSteps, List.filterMap_append]

lemma cleanupPasses_append (xs ys : List RunStep) :
    cleanupPasses (xs ++ ys) = cleanupPasses xs ++ cleanupPasses ys := by
  simp [cleanupPasses, List.filterMap_append]

lemma fileSteps_map_file (sts : List FileStep) :
    fileSteps (sts.map RunStep.file) = sts := by
  induction sts with
  | nil => rfl
  | cons s ss ih => simp [fileSteps] at ih ⊢; exact ih

lemma fileSteps_cleanup_block (c : Prop) [Decidable c] (x : List (List String)) :
    fileSteps (if c then [RunStep.cleanupPass x] else []) = [] := by
  by_cases h : c <;> simp [h, fileSteps]

lemma cleanupPasses_map_file (sts : List FileStep) :
    cleanupPasses (sts.map RunStep.file) = [] := by
  induction sts with
  | nil => rfl
  | cons s ss ih => exact ih

lemma find_matches_of_ok {p : PatternInput} (h : isOkPattern p = true) :
    find_matches p = .ok (matchedFiles p) := by
  unfold isOkPattern at h
  unfold find_matches matchedFiles
  cases hp : p.entries with
  | ok es => simp [find_matches, hp]
  | error e => rw [hp] at h; simp at h

lemma runFrom_ok_idxStrings (a : RunArgs) :
    ∀ (patterns : List PatternInput) (idx : Nat),
      (∀ p ∈ patterns, isOkPattern p = true) →
      (fileSteps (runFrom a patterns idx)).map (·.idxString)
        = (List.range' idx ((patterns.map fun p => (matchedFiles p).length).sum)).map
            fun i => padZero a.idxWidth (toString i) := by
  intro patterns
  induction patterns with
  | nil => intro idx h; simp [runFrom, fileSteps]
  | cons p ps ih =>
    intro idx h
    have hp : isOkPattern p = true := h p (List.mem_cons_self p ps)
    have hps : ∀ q ∈ ps, isOkPattern q = true :=
      fun q hq => h q (List.mem_cons_of_mem p hq)
    have hm := apply_matches_spec a (matchedFiles p) idx
    simp only [runFrom, find_matches_of_ok hp]
    rw [fileSteps_append, fileSteps_append, fileSteps_map_file,
      fileSteps_cleanup_block, List.map_append, List.map_append, hm.1,
      ih _ hps, hm.2]
    simp only [List.map_cons, List.sum_cons, List.map_nil, List.append_nil]
    rw [← List.map_append]
    congr 1
    have hr := List.range'_append idx (matchedFiles p).length
      ((ps.map fun q => (matchedFiles q).length).sum) 1
    simp only [Nat.one_mul] at hr
    rw [hr, Nat.add_comm]

lemma sysidx_mem_processFile (a : RunArgs) (f : FileSpec) (idx : Nat) :
    ("SysIdx", (processFile a f idx).idxString) ∈ (processFile a f idx).data := by
  simp [processFile]

lemma sysidx_mem_apply_matches (a : RunArgs) :
    ∀ (files : List FileSpec) (idx : Nat),
      ∀ st ∈ (apply_matches a files idx).1, ("SysIdx", st.idxString) ∈ st.data := by
  intro files
  induction files with
  | nil => intro idx st hst; simp [apply_matches] at hst
  | cons f fs ih =>
    intro idx st hst
    simp only [apply_matches, List.mem_cons] at hst
    rcases hst with rfl | hst
    · exact sysidx_mem_processFile a f idx
    · exact ih (idx + 1) st hst

lemma sysidx_mem_runFrom (a : RunArgs) :
    ∀ (patterns : List PatternInput) (idx : Nat),
      ∀ st ∈ fileSteps (runFrom a patterns idx), ("SysIdx", st.idxString) ∈ st.data := by
  intro patterns
  induction patterns with
  | nil => intro idx st hst; simp [runFrom, fileSteps] at hst
  | cons p ps ih =>
    intro idx st hst
    simp only [runFrom] at hst
    cases hfm : find_matches p with
    | error e => rw [hfm] at hst; simp [fileSteps] at hst
    | ok files =>
      rw [hfm] at hst
      rw [fileSteps_append, fileSteps_append, fileSteps_map_file,
        fileSteps_cleanup_block] at hst
      simp only [List.append_nil, List.mem_append] at hst
      rcases hst with hst | hst
      · exact sysidx_mem_apply_matches a files idx st hst
      · exact ih _ st hst

/-- C1: in a run with no pattern error, the index counter takes exactly the
values `idx_start, idx_start + 1, …, idx_start + N − 1` over the `N`
processed files, in match order (by pattern, then match order within the
pattern), regardless of mode and of per-file render or apply failures, and
each file's data map holds the zero-padded counter value under the reserved
key `SysIdx`. -/
theorem c1_index_counter (a : RunArgs) (patterns : List PatternInput)
    (h : ∀ p ∈ patterns, isOkPattern p = true) :
    ((fileSteps (runApp a patterns)).map (·.idxString)
      = (List.range' a.idxStart ((patterns.map fun p => (matchedFiles p).length).sum)).map
          fun i => padZero a.idxWidth (toString i))
    ∧ ∀ st ∈ fileSteps (runApp a patterns), ("SysIdx", st.idxString) ∈ st.data :=
  ⟨runFrom_ok_idxStrings a patterns a.idxStart h,
   sysidx_mem_runFrom a patterns a.idxStart⟩

/-- A file world in which every check passes and every syscall succeeds. -/
def quietWorld : FileWorld :=
  { sameFile := false, destExists := false, destIsSymlink := false,
    removeFails := false, parentMissing := false, createFails := false,
    mutateFails := false }

/-- Default-like arguments: `-m mv`, nothing else set. -/
def baseArgs : RunArgs :=
  { mode := .move, dryRun := false, force := false, verbose := false,
    deleteEmptyDirs := false, forceAbsoluteSymlinks := false,
    maxDisplayLen := 100, idxStart := 0, idxWidth := 6 }

def c1File (name : String) (r : Except Unit (List String)) : FileSpec :=
  { path := ["in", name], isFile := true, props := [("SysName", name)],
    render := r, world := quietWorld }

def c1Args : RunArgs := { baseArgs with idxStart := 3, idxWidth := 4 }

def c1Pat1 : PatternInput :=
  ⟨.ok [.ok (c1File "a" (.ok ["out", "a"])), .readErr, .ok (c1File "b" (.error ()))]⟩

def c1Pat2 : PatternInput := ⟨.ok [.ok (c1File "c" (.ok ["out", "c"]))]⟩

/-- C1 witness: a two-pattern run (three matched files, one per-match error,
one render failure) numbers its files `0003, 0004, 0005`. -/
theorem c1_index_counter_witness :
    (∀ p ∈ [c1Pat1, c1Pat2], isOkPattern p = true)
    ∧ (((fileSteps (runApp c1Args [c1Pat1, c1Pat2])).map (·.idxString)
        = (List.range' c1Args.idxStart
            (([c1Pat1, c1Pat2].map fun p => (matchedFiles p).length).sum)).map
              fun i => padZero c1Args.idxWidth (toString i))
      ∧ ∀ st ∈ fileSteps (runApp c1Args [c1Pat1, c1Pat2]),
          ("SysIdx", st.idxString) ∈ st.data) :=
  ⟨by decide, c1_index_counter c1Args [c1Pat1, c1Pat2] (by decide)⟩

lemma apply_mode_skip_of_dest_exists (a : RunArgs) (w : FileWorld)
    (hforce : a.force = false)
    (hdest : w.destExists = true ∨ w.destIsSymlink = true) :
    apply_mode a w = [] := by
  have hor : (w.destExists || w.destIsSymlink) = true := by
    rcases hdest with h | h <;> simp [h]
  unfold apply_mode
  by_cases hm : a.mode = .info
  · simp [hm]
  · by_cases hs : w.sameFile <;> simp [hm, hs, hor, hforce]

lemma apply_matches_no_events (a : RunArgs) (hforce : a.force = false) :
    ∀ (files : List FileSpec) (idx : Nat),
      (∀ f ∈ files, f.world.destExists = true ∨ f.world.destIsSymlink = true) →
      ∀ st ∈ (apply_matches a files idx).1, st.events = [] := by
  intro files
  induction files with
  | nil => intro idx h st hst; simp [apply_matches] at hst
  | cons f fs ih =>
    intro idx h st hst
    simp only [apply_matches, List.mem_cons] at hst
    rcases hst with rfl | hst
    · show (processFile a f idx).events = []
      have hskip := apply_mode_skip_of_dest_exists a f.world hforce
        (h f (List.mem_cons_self f fs))
      simp only [processFile]
      cases f.render with
      | ok d => simpa using hskip
      | error e => simp
    · exact ih (idx + 1) (fun g hg => h g (List.mem_cons_of_mem f hg)) st hst

lemma runFrom_no_events (a : RunArgs) (hforce : a.force = false) :
    ∀ (patterns : List PatternInput) (idx : Nat),
      (∀ p ∈ patterns, ∀ f ∈ matchedFiles p,
          f.world.destExists = true ∨ f.world.destIsSymlink = true) →
      ∀ st ∈ fileSteps (runFrom a patterns idx), st.events = [] := by
  intro patterns
  induction patterns with
  | nil => intro idx h st hst; simp [runFrom, fileSteps] at hst
  | cons p ps ih =>
    intro idx h st hst
    simp only [runFrom] at hst
    cases hfm : find_matches p with
    | error e => rw [hfm] at hst; simp [fileSteps] at hst
    | ok files =>
      rw [hfm] at hst
      rw [fileSteps_append, fileSteps_append, fileSteps_map_file,
        fileSteps_cleanup_block] at hst
      simp only [List.append_nil, List.mem_append] at hst
      have hfiles : matchedFiles p = files := by
        unfold matchedFiles; rw [hfm]
      rcases hst with hst | hst
      · exact apply_matches_no_events a hforce files idx
          (by rw [← hfiles]; exact h p (List.mem_cons_self p ps)) st hst
      · exact ih _ (fun q hq => h q (List.mem_cons_of_mem p hq)) st hst

/-- C5: for every non-Info mode, when the destination already exists (as a
file, or as a symlink even with a missing target) and `--force` is disabled,
`apply_mode` performs no filesystem mutation for that file (it is skipped
with a logged warning); consequently, a whole run in which every processed
file's destination already exists — e.g. a second run on the same inputs and
template — performs zero mutations and leaves the first run's outputs
untouched. -/
theorem c5_no_force_skips_existing :
    (∀ (a : RunArgs) (w : FileWorld), a.mode ≠ .info → a.force = false →
        (w.destExists = true ∨ w.destIsSymlink = true) → apply_mode a w = [])
    ∧ (∀ (a : RunArgs) (patterns : List PatternInput), a.force = false →
        (∀ p ∈ patterns, ∀ f ∈ matchedFiles p,
            f.world.destExists = true ∨ f.world.destIsSymlink = true) →
        ∀ st ∈ fileSteps (runApp a patterns), st.events = []) :=
  ⟨fun a w _ hforce hdest => apply_mode_skip_of_dest_exists a w hforce hdest,
   fun a patterns hforce h => runFrom_no_events a hforce patterns a.idxStart h⟩

/-- A second-run world: the destination produced by the first run exists. -/
def destExistsWorld : FileWorld := { quietWorld with destExists := true }

def c5File : FileSpec :=
  { path := ["in", "a"], isFile := true, props := [],
    render := .ok ["out", "a"], world := destExistsWorld }

def c5Pat : PatternInput := ⟨.ok [.ok c5File]⟩

/-- C5 witness: both parts applied at a concrete second-run configuration. -/
theorem c5_no_force_skips_existing_witness :
    (baseArgs.mode ≠ .info ∧ baseArgs.force = false
      ∧ (destExistsWorld.destExists = true ∨ destExistsWorld.destIsSymlink = true)
      ∧ apply_mode baseArgs destExistsWorld = [])
    ∧ ((∀ p ∈ [c5Pat], ∀ f ∈ matchedFiles p,
          f.world.destExists = true ∨ f.world.destIsSymlink = true)
      ∧ ∀ st ∈ fileSteps (runApp baseArgs [c5Pat]), st.events = []) :=
  ⟨⟨by decide, by decide, by decide,
    c5_no_force_skips_existing.1 baseArgs destExistsWorld (by decide) (by decide) (by decide)⟩,
   ⟨by decide,
    c5_no_force_skips_existing.2 baseArgs [c5Pat] (by decide) (by decide)⟩⟩

lemma runFrom_cleanupPasses_off (a : RunArgs)
    (hoff : ¬(a.mode = .move ∧ a.deleteEmptyDirs = true)) :
    ∀ (patterns : List PatternInput) (idx : Nat),
      cleanupPasses (runFrom a patterns idx) = [] := by
  intro patterns
  induction patterns with
  | nil => intro idx; simp [runFrom, cleanupPasses]
  | cons p ps ih =>
    intro idx
    simp only [runFrom]
    cases hfm : find_matches p with
    | error e => simp [cleanupPasses]
    | ok files =>
      rw [cleanupPasses_append, cleanupPasses_append, cleanupPasses_map_file]
      have hcond : ¬(a.mode = .move ∧ a.deleteEmptyDirs) := by
        intro hc; exact hoff ⟨hc.1, hc.2⟩
      rw [if_neg hcond, ih]
      rfl

lemma runFrom_cleanupPasses_on (a : RunArgs)
    (hmode : a.mode = .move) (hdel : a.deleteEmptyDirs = true) :
    ∀ (patterns : List PatternInput) (idx : Nat),
      (∀ p ∈ patterns, isOkPattern p = true) →
      cleanupPasses (runFrom a patterns idx)
        = patterns.map fun p => (matchedFiles p).map (·.path) := by
  intro patterns
  induction patterns with
  | nil => intro idx h; simp [runFrom, cleanupPasses]
  | cons p ps ih =>
    intro idx h
    have hp : isOkPattern p = true := h p (List.mem_cons_self p ps)
    simp only [runFrom, find_matches_of_ok hp]
    rw [cleanupPasses_append, cleanupPasses_append, cleanupPasses_map_file,
      if_pos ⟨hmode, hdel⟩]
    simp only [List.nil_append, List.map_cons]
    rw [ih _ (fun q hq => h q (List.mem_cons_of_mem p hq))]
    rfl

/-- C3 (amended): the directory-cleanup pass runs only when the mode is Move
and empty-directory deletion is requested, but it runs once per glob
pattern — immediately after that pattern's files are processed, with its
candidate sources being only that pattern's matched paths — not once per
invocation after all patterns. -/
theorem c3_cleanup_per_pattern :
    (∀ (a : RunArgs) (patterns : List PatternInput),
        ¬(a.mode = .move ∧ a.deleteEmptyDirs = true) →
        cleanupPasses (runApp a patterns) = [])
    ∧ (∀ (a : RunArgs) (patterns : List PatternInput),
        a.mode = .move → a.deleteEmptyDirs = true →
        (∀ p ∈ patterns, isOkPattern p = true) →
        cleanupPasses (runApp a patterns)
          = patterns.map fun p => (matchedFiles p).map (·.path)) :=
  ⟨fun a patterns hoff => runFrom_cleanupPasses_off a hoff patterns a.idxStart,
   fun a patterns hmode hdel h =>
    runFrom_cleanupPasses_on a hmode hdel patterns a.idxStart h⟩

def c3Args : RunArgs := { baseArgs with deleteEmptyDirs := true }

def c3File1 : FileSpec :=
  { path := ["a", "x"], isFile := true, props := [],
    render := .ok ["out", "x"], world := quietWorld }

def c3File2 : FileSpec :=
  { path := ["b", "y"], isFile := true, props := [],
    render := .ok ["out", "y"], world := quietWorld }

def c3Pat1 : PatternInput := ⟨.ok [.ok c3File1]⟩

def c3Pat2 : PatternInput := ⟨.ok [.ok c3File2]⟩

/-- C3 witness: the amended per-pattern behaviour applied at a concrete
two-pattern Move run with cleanup requested, and at a Copy run without. -/
theorem c3_cleanup_per_pattern_witness :
    (cleanupPasses (runApp { c3Args with mode := .copy } [c3Pat1, c3Pat2]) = [])
    ∧ cleanupPasses (runApp c3Args [c3Pat1, c3Pat2])
        = [c3Pat1, c3Pat2].map fun p => (matchedFiles p).map (·.path) :=
  ⟨c3_cleanup_per_pattern.1 { c3Args with mode := .copy } [c3Pat1, c3Pat2] (by decide),
   c3_cleanup_per_pattern.2 c3Args [c3Pat1, c3Pat2] (by decide) (by decide) (by decide)⟩

/-- C3 (counterexample): in a Move run over two patterns with cleanup
requested, the cleanup pass runs twice — once per pattern, each time with
only that pattern's source paths, and the first pass runs before the second
pattern's file is processed — refuting the claim that cleanup runs once per
invocation, after all glob patterns have been processed, over the union of
all patterns' paths. -/
theorem c3_cleanup_not_once :
    runApp c3Args [c3Pat1, c3Pat2]
      = [RunStep.file (processFile c3Args c3File1 0),
         RunStep.cleanupPass [["a", "x"]],
         RunStep.file (processFile c3Args c3File2 1),
         RunStep.cleanupPass [["b", "y"]]]
    ∧ (cleanupPasses (runApp c3Args [c3Pat1, c3Pat2])).length ≠ 1 := by decide

lemma runFrom_abort (a : RunArgs) (post : List PatternInput) (bad : PatternInput)
    (hbad : isOkPattern bad = false) :
    ∀ (pre : List PatternInput) (idx : Nat),
      (∀ p ∈ pre, isOkPattern p = true) →
      runFrom a (pre ++ bad :: post) idx = runFrom a pre idx ++ [RunStep.aborted] := by
  intro pre
  induction pre with
  | nil =>
    intro idx h
    simp only [List.nil_append, runFrom]
    cases hb : bad.entries with
    | ok es => unfold isOkPattern at hbad; rw [hb] at hbad; simp at hbad
    | error e => simp [find_matches, hb, runFrom]
  | cons p ps ih =>
    intro idx h
    have hp : isOkPattern p = true := h p (List.mem_cons_self p ps)
    simp only [List.cons_append, runFrom, find_matches_of_ok hp, List.append_eq]
    rw [ih _ (fun q hq => h q (List.mem_cons_of_mem p hq))]
    simp [List.append_assoc]

lemma aborted_notMem_runFrom_single (a : RunArgs) (es : List GlobEntry) (idx : Nat) :
    RunStep.aborted ∉ runFrom a [⟨.ok es⟩] idx := by
  intro hmem
  simp only [runFrom, find_matches] at hmem
  rcases List.mem_append.mp hmem with hmem | hmem
  · rcases List.mem_append.mp hmem with hmem | hmem
    · rcases List.mem_map.mp hmem with ⟨st, _, habs⟩
      cases habs
    · by_cases hc : a.mode = .move ∧ a.deleteEmptyDirs = true
      · rw [if_pos ⟨hc.1, hc.2⟩] at hmem
        simp at hmem
      · rw [if_neg (fun hh => hc ⟨hh.1, hh.2⟩)] at hmem
        simp at hmem
  · simp [runFrom] at hmem

/-- C9 (amended): a syntactically invalid glob pattern is fatal — the run
aborts at the point that pattern is expanded, so nothing from it or any
later pattern is processed, but files matched by *earlier* patterns have
already been processed by then; a per-match expansion error, by contrast, is
only logged: that entry is skipped, the remaining entries of the pattern are
still processed, and the run is not aborted. -/
theorem c9_pattern_error_fatal_match_error_skipped :
    (∀ (a : RunArgs) (pre post : List PatternInput) (bad : PatternInput),
        (∀ p ∈ pre, isOkPattern p = true) → isOkPattern bad = false →
        runApp a (pre ++ bad :: post) = runApp a pre ++ [RunStep.aborted])
    ∧ (∀ (es1 es2 : List GlobEntry),
        matchedFiles ⟨.ok (es1 ++ GlobEntry.readErr :: es2)⟩
          = matchedFiles ⟨.ok es1⟩ ++ matchedFiles ⟨.ok es2⟩)
    ∧ (∀ (a : RunArgs) (es : List GlobEntry) (idx : Nat),
        RunStep.aborted ∉ runFrom a [⟨.ok es⟩] idx) :=
  ⟨fun a pre post bad hpre hbad => runFrom_abort a post bad hbad pre a.idxStart hpre,
   fun es1 es2 => by
    simp [matchedFiles, find_matches, List.filterMap_append],
   aborted_notMem_runFrom_single⟩

def c9Bad : PatternInput := ⟨.error ()⟩

/-- C9 witness: the amended taxonomy applied at a concrete run — one valid
pattern followed by an invalid one, and a pattern with a read error between
two good entries. -/
theorem c9_pattern_error_witness :
    (runApp c3Args [c3Pat1, c9Bad] = runApp c3Args [c3Pat1] ++ [RunStep.aborted])
    ∧ matchedFiles ⟨.ok ([.ok c3File1] ++ GlobEntry.readErr :: [.ok c3File2])⟩
        = matchedFiles ⟨.ok [.ok c3File1]⟩ ++ matchedFiles ⟨.ok [.ok c3File2]⟩
    ∧ RunStep.aborted ∉ runFrom c3Args [⟨.ok [.ok c3File1]⟩] 0 :=
  ⟨c9_pattern_error_fatal_match_error_skipped.1 c3Args [c3Pat1] [] c9Bad
      (by decide) (by decide),
   c9_pattern_error_fatal_match_error_skipped.2.1 [.ok c3File1] [.ok c3File2],
   c9_pattern_error_fatal_match_error_skipped.2.2 c3Args [.ok c3File1] 0⟩

def c9Args : RunArgs := baseArgs

def c9File : FileSpec :=
  { path := ["in", "f"], isFile := true, props := [],
    render := .ok ["out", "f"], world := quietWorld }

/-- C9 (counterexample): with a valid first pattern and an invalid second
one, the run renames the first pattern's file and only then aborts — so an
invalid glob pattern does *not* abort the run before any file is touched. -/
theorem c9_file_touched_before_abort :
    runApp c9Args [⟨.ok [.ok c9File]⟩, c9Bad]
      = [RunStep.file (processFile c9Args c9File 0), RunStep.aborted]
    ∧ (processFile c9Args c9File 0).events = [FsEvent.rename] := by decide

/-- The laws of a strict total order given as a boolean comparison, as
satisfied by the `Ord` instances Rust's `BTreeSet` relies on. -/
structure StrictTotalBool {α : Type} (lt : α → α → Bool) : Prop where
  irrefl : ∀ a, lt a a = false
  trans : ∀ a b c, lt a b = true → lt b c = true → lt a c = true
  total : ∀ a b, lt a b = false → lt b a = false → a = b

lemma StrictTotalBool.asymm {α : Type} {lt : α → α → Bool}
    (st : StrictTotalBool lt) (a b : α) (h : lt a b = true) : lt b a = false := by
  cases hba : lt b a with
  | false => rfl
  | true =>
    have haa := st.trans a b a h hba
    rw [st.irrefl a] at haa
    cases haa

/-- Lexicographic comparison of component lists, mirroring the derived
`Ord for Path` (component-wise comparison) used by `BTreeSet<PathBuf>`. -/
def lexLt {α : Type} (lt : α → α → Bool) : List α → List α → Bool
  | _, [] => false
  | [], _ :: _ => true
  | a :: as, b :: bs => if lt a b then true else if lt b a then false else lexLt lt as bs

lemma lexLt_cons {α : Type} (lt : α → α → Bool) (a b : α) (as bs : List α) :
    lexLt lt (a :: as) (b :: bs)
      = if lt a b then true else if lt b a then false else lexLt lt as bs := rfl

lemma lexLt_cons_iff {α : Type} {lt : α → α → Bool} (st : StrictTotalBool lt)
    (a b : α) (as bs : List α) :
    lexLt lt (a :: as) (b :: bs) = true
      ↔ (lt a b = true ∨ (a = b ∧ lexLt lt as bs = true)) := by
  rw [lexLt_cons]
  split_ifs with h1 h2
  · simp [h1]
  · constructor
    · intro hh; cases hh
    · intro hh
      rcases hh with hab | ⟨rfl, _⟩
      · exact absurd hab h1
      · rw [st.irrefl a] at h2; cases h2
  · have hab : lt a b = false := by
      cases hv : lt a b with
      | false => rfl
      | true => exact absurd hv h1
    have hba : lt b a = false := by
      cases hv : lt b a with
      | false => rfl
      | true => exact absurd hv h2
    have heq := st.total a b hab hba
    subst heq
    simp [hab]

lemma lexLt_irrefl {α : Type} {lt : α → α → Bool} (st : StrictTotalBool lt) :
    ∀ l : List α, lexLt lt l l = false := by
  intro l
  induction l with
  | nil => rfl
  | cons a as ih => simp [lexLt_cons, st.irrefl a, ih]

lemma lexLt_trans {α : Type} {lt : α → α → Bool} (st : StrictTotalBool lt) :
    ∀ p q r : List α, lexLt lt p q = true → lexLt lt q r = true → lexLt lt p r = true := by
  intro p
  induction p with
  | nil =>
    intro q r h1 h2
    cases r with
    | nil =>
      cases q with
      | nil => exact h1
      | cons b bs => cases h2
    | cons c cs => rfl
  | cons a as ih =>
    intro q r h1 h2
    cases q with
    | nil => cases h1
    | cons b bs =>
      cases r with
      | nil => cases h2
      | cons c cs =>
        rw [lexLt_cons_iff st] at h1 h2 ⊢
        rcases h1 with hab | ⟨rfl, hrec1⟩
        · rcases h2 with hbc | ⟨rfl, hrec2⟩
          · exact Or.inl (st.trans a b c hab hbc)
          · exact Or.inl hab
        · rcases h2 with hac | ⟨rfl, hrec2⟩
          · exact Or.inl hac
          · exact Or.inr ⟨rfl, ih bs cs hrec1 hrec2⟩

lemma lexLt_total {α : Type} {lt : α → α → Bool} (st : StrictTotalBool lt) :
    ∀ p q : List α, lexLt lt p q = false → lexLt lt q p = false → p = q := by
  intro p
  induction p with
  | nil =>
    intro q h1 h2
    cases q with
    | nil => rfl
    | cons b bs => cases h1
  | cons a as ih =>
    intro q h1 h2
    cases q with
    | nil => cases h2
    | cons b bs =>
      have hab : lt a b = false := by
        cases hv : lt a b with
        | false => rfl
        | true => rw [lexLt_cons, hv] at h1; cases h1
      have hba : lt b a = false := by
        cases hv : lt b a with
        | false => rfl
        | true => rw [lexLt_cons, hv] at h2; cases h2
      have heq := st.total a b hab hba
      subst heq
      rw [lexLt_cons, hab] at h1 h2
      simp only [Bool.false_eq_true, if_false] at h1 h2
      rw [ih bs h1 h2]

lemma lexLt_strictTotal {α : Type} {lt : α → α → Bool} (st : StrictTotalBool lt) :
    StrictTotalBool (lexLt lt) :=
  ⟨lexLt_irrefl st, lexLt_trans st, lexLt_total st⟩

lemma lexLt_of_ne_of_pre {α : Type} {lt : α → α → Bool} (st : StrictTotalBool lt) :
    ∀ p q : List α, p <+: q → p ≠ q → lexLt lt p q = true := by
  intro p
  induction p with
  | nil =>
    intro q hpre hne
    cases q with
    | nil => exact absurd rfl hne
    | cons b bs => rfl
  | cons a as ih =>
    intro q hpre hne
    cases q with
    | nil =>
      have := hpre.length_le
      simp at this
    | cons b bs =>
      rcases List.cons_prefix_cons.mp hpre with ⟨rfl, htail⟩
      rw [lexLt_cons, st.irrefl a]
      simp only [if_false, Bool.false_eq_true]
      exact ih bs htail (fun hh => hne (by rw [hh]))

/-- Code-point comparison of characters: the order underlying byte-wise
UTF-8 string comparison (they agree, a standard property of UTF-8). -/
def charLtB (a b : Char) : Bool := decide (a.toNat < b.toNat)

lemma charLtB_strictTotal : StrictTotalBool charLtB := by
  refine ⟨?_, ?_, ?_⟩
  · intro a; simp [charLtB]
  · intro a b c h1 h2
    simp only [charLtB, decide_eq_true_eq] at h1 h2 ⊢
    omega
  · intro a b h1 h2
    simp only [charLtB, decide_eq_false_iff_not, Nat.not_lt] at h1 h2
    have hn : a.toNat = b.toNat := Nat.le_antisymm h2 h1
    have := congrArg Char.ofNat hn
    rwa [Char.ofNat_toNat, Char.ofNat_toNat] at this

/-- String comparison as Rust's `Ord for str` (byte-lexicographic, modelled
character-wise — equivalent for valid UTF-8). -/
def strLt (a b : String) : Bool := lexLt charLtB a.data b.data

lemma strLt_strictTotal : StrictTotalBool strLt := by
  have base := lexLt_strictTotal charLtB_strictTotal
  refine ⟨fun a => base.irrefl a.data, fun a b c => base.trans a.data b.data c.data, ?_⟩
  intro a b h1 h2
  have hd := base.total a.data b.data h1 h2
  cases a; cases b
  simp only at hd
  rw [hd]

/-- `Ord for PathBuf`: component-wise lexicographic comparison. -/
def pathLt (p q : List String) : Bool := lexLt strLt p q

lemma pathLt_strictTotal : StrictTotalBool pathLt :=
  lexLt_strictTotal strLt_strictTotal

/-- Ordered insertion into a sorted list: the model of `BTreeSet::insert`
(the set is kept sorted by `lt`; an element already present is not
duplicated). -/
def insertSorted {α : Type} (lt : α → α → Bool) (x : α) : List α → List α
  | [] => [x]
  | q :: qs =>
    if lt x q then x :: q :: qs
    else if lt q x then q :: insertSorted lt x qs
    else q :: qs

lemma mem_insertSorted {α : Type} {lt : α → α → Bool} (x : α) :
    ∀ (l : List α) (y : α), y ∈ insertSorted lt x l → y = x ∨ y ∈ l := by
  intro l
  induction l with
  | nil => intro y hy; simp [insertSorted] at hy; exact Or.inl hy
  | cons q qs ih =>
    intro y hy
    unfold insertSorted at hy
    split_ifs at hy with h1 h2
    · rcases List.mem_cons.mp hy with h | h
      · exact Or.inl h
      · exact Or.inr h
    · rcases List.mem_cons.mp hy with h | h
      · exact Or.inr (by rw [h]; exact List.mem_cons_self _ _)
      · rcases ih y h with h' | h'
        · exact Or.inl h'
        · exact Or.inr (List.mem_cons_of_mem _ h')
    · exact Or.inr hy

lemma pairwise_insertSorted {α : Type} {lt : α → α → Bool}
    (st : StrictTotalBool lt) (x : α) :
    ∀ l : List α, l.Pairwise (fun a b => lt a b = true) →
      (insertSorted lt x l).Pairwise (fun a b => lt a b = true) := by
  intro l
  induction l with
  | nil => intro h; simp [insertSorted]
  | cons q qs ih =>
    intro h
    rcases List.pairwise_cons.mp h with ⟨hq, hqs⟩
    unfold insertSorted
    split_ifs with h1 h2
    · refine List.pairwise_cons.mpr ⟨?_, h⟩
      intro y hy
      rcases List.mem_cons.mp hy with rfl | hy
      · exact h1
      · exact st.trans x q y h1 (hq y hy)
    · refine List.pairwise_cons.mpr ⟨?_, ih hqs⟩
      intro y hy
      rcases mem_insertSorted x qs y hy with rfl | hy
      · exact h2
      · exact hq y hy
    · exact h

/-- `Path::ancestors` of a (component-list) path, with the final empty path
excluded as the code does via `as_os_str().is_empty()`: all nonempty
prefixes, longest first. -/
def ancestorsOf (l : List String) : List (List String) :=
  (List.range l.length).map fun k => l.take (l.length - k)

/-- The inner loop of `cleanup_empty_dirs` for one source path: insert every
nonempty ancestor of the path's parent into the candidate set unless already
present. -/
def addAncestors (acc : List (List String)) (src : List String) : List (List String) :=
  (ancestorsOf src.dropLast).foldl
    (fun acc2 anc => if anc ∈ acc2 then acc2 else insertSorted pathLt anc acc2) acc

/-- The candidate set of `cleanup_empty_dirs`: the deduplicated ancestors of
every processed source path, kept in `BTreeSet` (ascending `pathLt`) order. -/
def collectCandidates (paths : List (List String)) : List (List String) :=
  paths.foldl addAncestors []

/-- The order in which `cleanup_empty_dirs` visits candidates:
`candidate_paths.iter().rev()`, i.e. descending `pathLt` order. -/
def candidateOrder (paths : List (List String)) : List (List String) :=
  (collectCandidates paths).reverse

lemma pairwise_addAncestors (src : List String) :
    ∀ acc : List (List String),
      acc.Pairwise (fun a b => pathLt a b = true) →
      (addAncestors acc src).Pairwise (fun a b => pathLt a b = true) := by
  unfold addAncestors
  generalize ancestorsOf src.dropLast = ancs
  induction ancs with
  | nil => intro acc h; exact h
  | cons anc rest ih =>
    intro acc h
    simp only [List.foldl_cons]
    by_cases hm : anc ∈ acc
    · rw [if_pos hm]; exact ih acc h
    · rw [if_neg hm]
      exact ih _ (pairwise_insertSorted pathLt_strictTotal anc acc h)

lemma pairwise_collectCandidates (paths : List (List String)) :
    (collectCandidates paths).Pairwise (fun a b => pathLt a b = true) := by
  unfold collectCandidates
  have hgen : ∀ (ps : List (List String)) (acc : List (List String)),
      acc.Pairwise (fun a b => pathLt a b = true) →
      (ps.foldl addAncestors acc).Pairwise (fun a b => pathLt a b = true) := by
    intro ps
    induction ps with
    | nil => intro acc h; exact h
    | cons p rest ih =>
      intro acc h
      exact ih _ (pairwise_addAncestors p acc h)
  exact hgen paths [] (by simp)

lemma candidateOrder_no_ancestor_first (paths : List (List String)) :
    (candidateOrder paths).Pairwise fun x y => ¬(x <+: y ∧ x ≠ y) := by
  unfold candidateOrder
  rw [List.pairwise_reverse]
  refine (pairwise_collectCandidates paths).imp ?_
  intro a b hlt ⟨hpre, hne⟩
  have hba : pathLt b a = true := lexLt_of_ne_of_pre strLt_strictTotal b a hpre hne
  have hbb := pathLt_strictTotal.trans b a b hba hlt
  rw [pathLt_strictTotal.irrefl b] at hbb
  cases hbb

/-- The directory tree the cleanup pass acts on: the existing files and
directories (as component-list paths), plus which directories
`fs::remove_dir` would refuse to delete (permissions and the like). -/
structure Fs where
  files : List (List String)
  dirs : List (List String)
  undeletable : List String → Bool

/-- What one `fs::read_dir` pass observes for a candidate directory. -/
inductive DirState where
  | missing
  | hasEntries
  | empty
deriving DecidableEq

/-- Whether the directory has any real child entry (the code's
`contains_files`: any entry other than the self/parent pseudo-entries). -/
def hasRealEntry (fs : Fs) (p : List String) : Bool :=
  fs.files.any (fun c => decide (c ≠ [] ∧ c.dropLast = p))
    || fs.dirs.any (fun c => decide (c ≠ [] ∧ c.dropLast = p))

/-- `fs::read_dir` plus the `contains_files` scan: an error for a missing
directory, otherwise whether any real entry was seen. -/
def readDirState (fs : Fs) (p : List String) : DirState :=
  if p ∈ fs.dirs then (if hasRealEntry fs p then .hasEntries else .empty)
  else .missing

/-- The observable effect of the cleanup pass. -/
inductive CleanupEvent where
  | removedDir (p : List String)
deriving DecidableEq

/-- `App::delete_empty_dir`: in dry-run mode do nothing; otherwise tolerate a
missing directory (`read_dir` error), leave a non-empty directory in place,
and delete an empty one non-recursively (`fs::remove_dir`), tolerating a
failed delete.  Returns whether it deleted, the updated tree, and the
successful deletions. -/
def delete_empty_dir (dryRun : Bool) (fs : Fs) (p : List String) :
    Bool × Fs × List CleanupEvent :=
  if dryRun then (false, fs, [])
  else
    match readDirState fs p with
    | .missing => (false, fs, [])
    | .hasEntries => (false, fs, [])
    | .empty =>
      if fs.undeletable p then (false, fs, [])
      else (true, { fs with dirs := fs.dirs.erase p }, [CleanupEvent.removedDir p])

/-- The candidate loop of `cleanup_empty_dirs`, threading the directory tree
through the successive `delete_empty_dir` calls. -/
def cleanupGo (dryRun : Bool) : Fs → List (List String) → Fs × List CleanupEvent
  | fs, [] => (fs, [])
  | fs, p :: ps =>
    let r := delete_empty_dir dryRun fs p
    let rest := cleanupGo dryRun r.2.1 ps
    (rest.1, r.2.2 ++ rest.2)

/-- `App::cleanup_empty_dirs`: collect the deduplicated nonempty ancestors of
every source path's parent into a `BTreeSet`, then visit them in reverse
(descending `pathLt`) order, attempting `delete_empty_dir` on each. -/
def cleanup_empty_dirs (dryRun : Bool) (fs : Fs) (paths : List (List String)) :
    Fs × List CleanupEvent :=
  cleanupGo dryRun fs (candidateOrder paths)

lemma delete_empty_dir_files (dryRun : Bool) (fs : Fs) (p : List String) :
    (delete_empty_dir dryRun fs p).2.1.files = fs.files := by
  unfold delete_empty_dir
  by_cases h1 : dryRun = true
  · rw [if_pos h1]
  · rw [if_neg h1]
    cases hrd : readDirState fs p with
    | missing => rfl
    | hasEntries => rfl
    | empty =>
      by_cases h2 : fs.undeletable p = true
      · rw [if_pos h2]
      · rw [if_neg h2]

lemma cleanupGo_files (dryRun : Bool) :
    ∀ (cands : List (List String)) (fs : Fs),
      (cleanupGo dryRun fs cands).1.files = fs.files := by
  intro cands
  induction cands with
  | nil => intro fs; rfl
  | cons p ps ih =>
    intro fs
    show (cleanupGo dryRun (delete_empty_dir dryRun fs p).2.1 ps).1.files = fs.files
    rw [ih, delete_empty_dir_files]

lemma delete_empty_dir_keeps_nonempty (dryRun : Bool) (fs : Fs) (p d : List String)
    (hfile : ∃ f ∈ fs.files, f ≠ [] ∧ f.dropLast = d) (hd : d ∈ fs.dirs) :
    d ∈ (delete_empty_dir dryRun fs p).2.1.dirs := by
  unfold delete_empty_dir
  by_cases h1 : dryRun = true
  · rw [if_pos h1]; exact hd
  · rw [if_neg h1]
    cases hrd : readDirState fs p with
    | missing => exact hd
    | hasEntries => exact hd
    | empty =>
      by_cases h2 : fs.undeletable p = true
      · rw [if_pos h2]; exact hd
      · rw [if_neg h2]
        show d ∈ fs.dirs.erase p
        have hne : d ≠ p := by
          intro heq
          subst heq
          rcases hfile with ⟨f, hfmem, hfne, hfdrop⟩
          have hentry : hasRealEntry fs d = true := by
            unfold hasRealEntry
            have hany : fs.files.any (fun c => decide (c ≠ [] ∧ c.dropLast = d)) = true :=
              List.any_eq_true.mpr ⟨f, hfmem, by simp [hfne, hfdrop]⟩
            rw [hany, Bool.true_or]
          unfold readDirState at hrd
          rw [if_pos hd, if_pos hentry] at hrd
          cases hrd
        exact (List.mem_erase_of_ne hne).mpr hd

lemma cleanupGo_keeps_nonempty (dryRun : Bool) :
    ∀ (cands : List (List String)) (fs : Fs) (d f : List String),
      f ≠ [] → f ∈ fs.files → f.dropLast = d → d ∈ fs.dirs →
      d ∈ (cleanupGo dryRun fs cands).1.dirs := by
  intro cands
  induction cands with
  | nil => intro fs d f hne hf hdrop hd; exact hd
  | cons p ps ih =>
    intro fs d f hne hf hdrop hd
    show d ∈ (cleanupGo dryRun (delete_empty_dir dryRun fs p).2.1 ps).1.dirs
    have hf' : f ∈ (delete_empty_dir dryRun fs p).2.1.files := by
      rw [delete_empty_dir_files]; exact hf
    have hd' : d ∈ (delete_empty_dir dryRun fs p).2.1.dirs :=
      delete_empty_dir_keeps_nonempty dryRun fs p d ⟨f, hf, hne, hdrop⟩ hd
    exact ih _ d f hne hf' hdrop hd'

lemma delete_empty_dir_events (dryRun : Bool) (fs : Fs) (p : List String)
    (hev : (delete_empty_dir dryRun fs p).2.2 ≠ []) :
    dryRun = false ∧ readDirState fs p = .empty
      ∧ (delete_empty_dir dryRun fs p).2.2 = [CleanupEvent.removedDir p]
      ∧ (delete_empty_dir dryRun fs p).2.1
          = { fs with dirs := fs.dirs.erase p } := by
  unfold delete_empty_dir at hev ⊢
  by_cases h1 : dryRun = true
  · rw [if_pos h1] at hev; exact absurd rfl hev
  · rw [if_neg h1] at hev ⊢
    have hdr : dryRun = false := by
      cases dryRun with
      | false => rfl
      | true => exact absurd rfl h1
    cases hrd : readDirState fs p with
    | missing => rw [hrd] at hev; exact absurd rfl hev
    | hasEntries => rw [hrd] at hev; exact absurd rfl hev
    | empty =>
      rw [hrd] at hev
      by_cases h2 : fs.undeletable p = true
      · rw [if_pos h2] at hev; exact absurd rfl hev
      · rw [if_neg h2] at hev ⊢
        exact ⟨hdr, rfl, rfl, rfl⟩

/-- C2 (amended): the cleanup pass deletes a directory only after the
emptiness check finds it free of real entries, the deletion is
non-recursive (a single `removedDir` for that directory, files untouched),
missing candidates are tolerated without effect, no directory holding a
file (a real entry) at the start is ever deleted, and candidates are
processed in descending `BTreeSet` (reverse lexicographic) order — which
guarantees every directory is handled before any of its ancestors, though
it is not descending path-depth order. -/
theorem c2_cleanup_never_deletes_nonempty :
    (∀ (dryRun : Bool) (fs : Fs) (p : List String),
        (delete_empty_dir dryRun fs p).2.2 ≠ [] →
        dryRun = false ∧ readDirState fs p = .empty
          ∧ (delete_empty_dir dryRun fs p).2.2 = [CleanupEvent.removedDir p]
          ∧ (delete_empty_dir dryRun fs p).2.1
              = { fs with dirs := fs.dirs.erase p })
    ∧ (∀ (dryRun : Bool) (fs : Fs) (p : List String),
        readDirState fs p = .missing → delete_empty_dir dryRun fs p = (false, fs, []))
    ∧ (∀ (dryRun : Bool) (fs : Fs) (paths : List (List String)),
        (cleanup_empty_dirs dryRun fs paths).1.files = fs.files)
    ∧ (∀ (dryRun : Bool) (fs : Fs) (paths : List (List String)) (d f : List String),
        f ≠ [] → f ∈ fs.files → f.dropLast = d → d ∈ fs.dirs →
        d ∈ (cleanup_empty_dirs dryRun fs paths).1.dirs)
    ∧ (∀ paths : List (List String),
        (candidateOrder paths).Pairwise fun x y => ¬(x <+: y ∧ x ≠ y)) := by
  refine ⟨delete_empty_dir_events, ?_, ?_, ?_, candidateOrder_no_ancestor_first⟩
  · intro dryRun fs p hmiss
    unfold delete_empty_dir
    by_cases h1 : dryRun = true
    · rw [if_pos h1]
    · rw [if_neg h1, hmiss]
  · intro dryRun fs paths
    exact cleanupGo_files dryRun (candidateOrder paths) fs
  · intro dryRun fs paths d f hne hf hdrop hd
    exact cleanupGo_keeps_nonempty dryRun (candidateOrder paths) fs d f hne hf hdrop hd

/-- A directory tree with `a/b/f` as a file, directories `a`, `a/b`, `c`,
and nothing undeletable. -/
def c2Fs : Fs :=
  { files := [["a", "b", "f"]], dirs := [["a"], ["a", "b"], ["c"]],
    undeletable := fun _ => false }

def c2Paths : List (List String) := [["a", "b", "x"], ["c", "y"]]

/-- C2 witness: the amended cleanup-safety theorem applied on `c2Fs` — the
empty directory `c` is deleted exactly once after being found empty, the
missing candidate `z` is tolerated, the files survive the pass, and the
non-empty directory `a/b` (it holds file `a/b/f`) survives the pass. -/
theorem c2_cleanup_witness :
    ((delete_empty_dir false c2Fs ["c"]).2.2 ≠ []
      ∧ (false = false ∧ readDirState c2Fs ["c"] = DirState.empty
        ∧ (delete_empty_dir false c2Fs ["c"]).2.2 = [CleanupEvent.removedDir ["c"]]
        ∧ (delete_empty_dir false c2Fs ["c"]).2.1
            = { c2Fs with dirs := c2Fs.dirs.erase ["c"] }))
    ∧ (readDirState c2Fs ["z"] = DirState.missing
      ∧ delete_empty_dir false c2Fs ["z"] = (false, c2Fs, []))
    ∧ (cleanup_empty_dirs false c2Fs c2Paths).1.files = c2Fs.files
    ∧ ((["a", "b", "f"] : List String) ≠ [] ∧ ["a", "b", "f"] ∈ c2Fs.files
      ∧ (["a", "b", "f"] : List String).dropLast = ["a", "b"]
      ∧ ["a", "b"] ∈ c2Fs.dirs
      ∧ ["a", "b"] ∈ (cleanup_empty_dirs false c2Fs c2Paths).1.dirs) :=
  ⟨⟨by decide, c2_cleanup_never_deletes_nonempty.1 false c2Fs ["c"] (by decide)⟩,
   ⟨by decide, c2_cleanup_never_deletes_nonempty.2.1 false c2Fs ["z"] (by decide)⟩,
   c2_cleanup_never_deletes_nonempty.2.2.1 false c2Fs c2Paths,
   ⟨by decide, by decide, by decide, by decide,
    c2_cleanup_never_deletes_nonempty.2.2.2.1 false c2Fs c2Paths ["a", "b"]
      ["a", "b", "f"] (by decide) (by decide) (by decide) (by decide)⟩⟩

/-- C2 (counterexample): for sources `a/b/x` and `c/y`, the candidate set is
`{a, a/b, c}` and the processing order — the `BTreeSet` iterator reversed —
is `c, a/b, a`, whose depths run `1, 2, 1`: not descending path-depth
("deepest first") order, even though every directory still precedes its
ancestors. -/
theorem c2_order_not_depth_descending :
    candidateOrder c2Paths = [["c"], ["a", "b"], ["a"]]
    ∧ ¬ ((candidateOrder c2Paths).Pairwise fun x y => y.length ≤ x.length) := by decide

/-- The run-constant state of `struct App` used by extraction: the startup
timestamp and the working directory. -/
structure AppCtx where
  now : Timestamp
  cwd : List String

/-- Platform string form of a component path (Unix separator). -/
def joinPath (cs : List String) : String := String.intercalate "/" cs

/-- Split a file name's characters at the last dot: `some (before, after)`
when a dot exists, preferring the rightmost one. -/
def splitAtLastDot : List Char → Option (List Char × List Char)
  | [] => none
  | c :: rest =>
    match splitAtLastDot rest with
    | some (pre, post) => some (c :: pre, post)
    | none => if c = '.' then some ([], rest) else none

/-- `std::path` `file_stem`/`extension` on one file name: the portion before
and after the last dot, except that a leading dot (hidden files) does not
start an extension. -/
def fileStemExt (name : String) : String × Option String :=
  match splitAtLastDot name.data with
  | some (pre, post) =>
    if pre = [] then (name, none) else ((⟨pre⟩ : String), some (⟨post⟩ : String))
  | none => (name, none)

/-- `Path::parent` on a component path: drop the final component. -/
def parentOf : List String → Option (List String)
  | [] => none
  | l => some l.dropLast

/-- `Path::extension` of the source path. -/
def extOf (src : List String) : Option String :=
  src.getLast?.bind fun n => (fileStemExt n).2

/-- `Path::file_stem` of the source path. -/
def stemOf (src : List String) : Option String :=
  src.getLast?.map fun n => (fileStemExt n).1

/-- `PropertyValue::from_opt_str`. -/
def from_opt_str : Option String → PropertyValue
  | some w => .text w
  | none => .nothing

/-- `PropertyValue::from_opt_str_datetime` with the injected chrono parser
for `"%Y:%m:%d %H:%M:%S"`: a timestamp on parse success, the raw text with a
logged warning on parse failure. -/
def from_opt_str_datetime (parse : String → Option Timestamp) :
    Option String → PropertyValue
  | some w =>
    match parse w with
    | some dt => .timestamp dt
    | none => .text w
  | none => .nothing

/-- `PropertyValue::from_opt_path`, over the path's platform string form. -/
def from_opt_path : Option String → PropertyValue
  | some s => .path (some s)
  | none => .nothing

/-- `PropertyValue::from_opt_integer`. -/
def from_opt_integer : Option Int → PropertyValue
  | some n => .integer n
  | none => .nothing

/-- `PropertyValue::from_opt_rational`: numerator/denominator pair of the
first element. -/
def from_opt_rational : Option (Int × Int) → PropertyValue
  | some (n, d) => .fraction n d
  | none => .nothing

/-- `PropertyValue::from_opt_real`. -/
def from_opt_real : Option F64 → PropertyValue
  | some v => .real v
  | none => .nothing

/-- `PropertyValue::from_opt_filetime`: the chrono conversion chain collapsed
to its outcome. -/
def from_opt_filetime : Option Timestamp → PropertyValue
  | some t => .timestamp t
  | none => .nothing

/-- Filesystem metadata as read by `fs::metadata`. -/
structure MetaData where
  created : Option Timestamp
  modified : Option Timestamp
  accessed : Option Timestamp
  size : Int

/-- The injected external capabilities extraction depends on. -/
structure Caps where
  parseExifDateTime : String → Option Timestamp

/-- Mirrors `exif::Value`: the native value kinds of a decoded EXIF field
(`ascii` entries carry their UTF-8 decode result; `undefined` its display
form). -/
inductive ExifValue where
  | byte (ns : List Int)
  | ascii (ts : List (Option String))
  | short (ns : List Int)
  | long (ns : List Int)
  | rational (rs : List (Int × Int))
  | sbyte (ns : List Int)
  | undefined (display : String)
  | sshort (ns : List Int)
  | slong (ns : List Int)
  | srational (rs : List (Int × Int))
  | float (vs : List F64)
  | double (vs : List F64)
  | unknown

/-- One decoded EXIF field: tag name, whether it sits in the thumbnail IFD,
and its typed value. -/
structure ExifField where
  tag : String
  isThumbnail : Bool
  value : ExifValue

/-- The three standard EXIF date/time tags. -/
def dateTimeTags : List String := ["DateTime", "DateTimeOriginal", "DateTimeDigitized"]

/-- The `match f.value` arm of `extract_properties`: map each native EXIF
value kind to a `PropertyValue`, taking the first element of multi-valued
fields, parsing the three date/time ASCII tags, and mapping unknown kinds to
`Nothing`. -/
def convertExifValue (caps : Caps) (tag : String) : ExifValue → PropertyValue
  | .byte ns => from_opt_integer ns.head?
  | .ascii ts =>
    let src := ts.head?.bind id
    if tag ∈ dateTimeTags then from_opt_str_datetime caps.parseExifDateTime src
    else from_opt_str src
  | .short ns => from_opt_integer ns.head?
  | .long ns => from_opt_integer ns.head?
  | .rational rs => from_opt_rational rs.head?
  | .sbyte ns => from_opt_integer ns.head?
  | .undefined d => .text d
  | .sshort ns => from_opt_integer ns.head?
  | .slong ns => from_opt_integer ns.head?
  | .srational rs => from_opt_rational rs.head?
  | .float vs => from_opt_real vs.head?
  | .double vs => from_opt_real vs.head?
  | .unknown => .nothing

/-- The property key of an EXIF field: the sanitized tag name, with the `Tn`
marker prepended when the field sits in the thumbnail IFD. -/
def exifKey (f : ExifField) : String :=
  sanitize_key (if f.isThumbnail then "Tn" ++ f.tag else f.tag)

/-- The run-constant group of `extract_properties`. -/
def constProps (app : AppCtx) : List (String × PropertyValue) :=
  [("SysDateTimeNow", .timestamp app.now),
   ("SysCwd", from_opt_path (some (joinPath app.cwd)))]

/-- The scalar path-derived group of `extract_properties`. -/
def pathBasicProps (src : List String) : List (String × PropertyValue) :=
  [("SysExt", from_opt_path (extOf src)),
   ("SysDotExt", from_opt_path ((extOf src).map fun e => "." ++ e)),
   ("SysName", from_opt_path (stemOf src)),
   ("SysFullName", from_opt_path src.getLast?),
   ("SysPath", from_opt_path ((parentOf src).map joinPath))]

/-- The per-component loop of `extract_properties`: `SysPathElem{i}`, then
(after pushing the component onto the running head) `SysPathAncestor{n-i-1}`
and `SysPathHead{i}`. -/
def componentProps (src : List String) : List (String × PropertyValue) :=
  (List.range src.length).flatMap fun i =>
    [("SysPathElem" ++ toString i, from_opt_path src[i]?),
     ("SysPathAncestor" ++ toString (src.length - i - 1),
        from_opt_path (some (joinPath (src.take (i + 1))))),
     ("SysPathHead" ++ toString i,
        from_opt_path (some (joinPath (src.take (i + 1)))))]

/-- The parent-suffix loop of `extract_properties`: `SysPathTail{i}` is the
parent path with its first `i` components dropped, for
`i ∈ 0..n_components-1`. -/
def tailProps (src : List String) : List (String × PropertyValue) :=
  match parentOf src with
  | none => []
  | some up =>
    (List.range (src.length - 1)).map fun i =>
      ("SysPathTail" ++ toString i, from_opt_path (some (joinPath (up.drop i))))

/-- The filesystem-metadata group: present only when `fs::metadata`
succeeded (on error the whole group is logged and skipped). -/
def metaProps : Except Unit MetaData → List (String × PropertyValue)
  | .error _ => []
  | .ok m =>
    [("SysDateTimeCreated", from_opt_filetime m.created),
     ("SysDateTimeModified", from_opt_filetime m.modified),
     ("SysDateTimeAccessed", from_opt_filetime m.accessed),
     ("SysSize", .integer m.size)]

/-- The content-hash group: `none` models an unopenable file, `some none` a
failed `io::copy`, `some (some hex)` the successful streamed SHA-1. -/
def hashProps : Option (Option String) → List (String × PropertyValue)
  | some (some hex) => [("SysSha1", .text hex)]
  | some none => []
  | none => []

/-- The EXIF group: `none` models an unopenable or unparseable container (no
EXIF segment); otherwise one property per decoded field. -/
def exifProps (caps : Caps) : Option (List ExifField) → List (String × PropertyValue)
  | none => []
  | some fields => fields.map fun f => (exifKey f, convertExifValue caps f.tag f.value)

/-- `App::extract_properties`: the groups emitted in source order, each
gated only by its own outcome. -/
def extract_properties (caps : Caps) (app : AppCtx) (src : List String)
    (meta : Except Unit MetaData) (hash : Option (Option String))
    (exif : Option (List ExifField)) : List (String × PropertyValue) :=
  constProps app ++ pathBasicProps src ++ componentProps src ++ tailProps src
    ++ metaProps meta ++ hashProps hash ++ exifProps caps exif

/-- The keys of the extracted property set, in emission order. -/
def extractedKeys (caps : Caps) (app : AppCtx) (src : List String)
    (meta : Except Unit MetaData) (hash : Option (Option String))
    (exif : Option (List ExifField)) : List String :=
  (extract_properties caps app src meta hash exif).map Prod.fst

lemma key_mem_extracted {caps : Caps} {app : AppCtx} {src : List String}
    {meta : Except Unit MetaData} {hash : Option (Option String)}
    {exif : Option (List ExifField)} {pr : String × PropertyValue}
    (h : pr ∈ extract_properties caps app src meta hash exif) :
    pr.1 ∈ extractedKeys caps app src meta hash exif :=
  List.mem_map.mpr ⟨pr, h, rfl⟩

lemma constProps_subset (caps : Caps) (app : AppCtx) (src : List String)
    (meta : Except Unit MetaData) (hash : Option (Option String))
    (exif : Option (List ExifField)) :
    ∀ pr ∈ constProps app, pr ∈ extract_properties caps app src meta hash exif := by
  intro pr h
  unfold extract_properties
  simp only [List.mem_append]
  tauto

lemma pathBasicProps_subset (caps : Caps) (app : AppCtx) (src : List String)
    (meta : Except Unit MetaData) (hash : Option (Option String))
    (exif : Option (List ExifField)) :
    ∀ pr ∈ pathBasicProps src, pr ∈ extract_properties caps app src meta hash exif := by
  intro pr h
  unfold extract_properties
  simp only [List.mem_append]
  tauto

lemma componentProps_subset (caps : Caps) (app : AppCtx) (src : List String)
    (meta : Except Unit MetaData) (hash : Option (Option String))
    (exif : Option (List ExifField)) :
    ∀ pr ∈ componentProps src, pr ∈ extract_properties caps app src meta hash exif := by
  intro pr h
  unfold extract_properties
  simp only [List.mem_append]
  tauto

lemma metaProps_subset (caps : Caps) (app : AppCtx) (src : List String)
    (meta : Except Unit MetaData) (hash : Option (Option String))
    (exif : Option (List ExifField)) :
    ∀ pr ∈ metaProps meta, pr ∈ extract_properties caps app src meta hash exif := by
  intro pr h
  unfold extract_properties
  simp only [List.mem_append]
  tauto

lemma hashProps_subset (caps : Caps) (app : AppCtx) (src : List String)
    (meta : Except Unit MetaData) (hash : Option (Option String))
    (exif : Option (List ExifField)) :
    ∀ pr ∈ hashProps hash, pr ∈ extract_properties caps app src meta hash exif := by
  intro pr h
  unfold extract_properties
  simp only [List.mem_append]
  tauto

lemma exifProps_subset (caps : Caps) (app : AppCtx) (src : List String)
    (meta : Except Unit MetaData) (hash : Option (Option String))
    (exif : Option (List ExifField)) :
    ∀ pr ∈ exifProps caps exif, pr ∈ extract_properties caps app src meta hash exif := by
  intro pr h
  unfold extract_properties
  simp only [List.mem_append]
  tauto

/-- C8: extraction degrades independently per group.  For every source path
and every combination of group outcomes, the run-constant and path-derived
keys are always present; the filesystem-metadata keys are present whenever
`fs::metadata` succeeded, the content-hash key whenever the file was opened
and hashed, and each EXIF field's key whenever the EXIF segment parsed —
each regardless of the other groups' failures (in particular, for a readable
file with no EXIF data, every path-derived key, every metadata key and the
hash key are still present); extraction is total and never aborts. -/
theorem c8_extraction_groups_independent (caps : Caps) (app : AppCtx)
    (src : List String) (meta : Except Unit MetaData)
    (hash : Option (Option String)) (exif : Option (List ExifField)) :
    ("SysDateTimeNow" ∈ extractedKeys caps app src meta hash exif
      ∧ "SysCwd" ∈ extractedKeys caps app src meta hash exif
      ∧ "SysExt" ∈ extractedKeys caps app src meta hash exif
      ∧ "SysDotExt" ∈ extractedKeys caps app src meta hash exif
      ∧ "SysName" ∈ extractedKeys caps app src meta hash exif
      ∧ "SysFullName" ∈ extractedKeys caps app src meta hash exif
      ∧ "SysPath" ∈ extractedKeys caps app src meta hash exif
      ∧ ∀ i, i < src.length →
          ("SysPathElem" ++ toString i) ∈ extractedKeys caps app src meta hash exif
          ∧ ("SysPathAncestor" ++ toString (src.length - i - 1))
              ∈ extractedKeys caps app src meta hash exif
          ∧ ("SysPathHead" ++ toString i) ∈ extractedKeys caps app src meta hash exif)
    ∧ (∀ m, meta = .ok m →
        "SysDateTimeCreated" ∈ extractedKeys caps app src meta hash exif
        ∧ "SysDateTimeModified" ∈ extractedKeys caps app src meta hash exif
        ∧ "SysDateTimeAccessed" ∈ extractedKeys caps app src meta hash exif
        ∧ "SysSize" ∈ extractedKeys caps app src meta hash exif)
    ∧ (∀ hex, hash = some (some hex) →
        "SysSha1" ∈ extractedKeys caps app src meta hash exif)
    ∧ (∀ fields, exif = some fields → ∀ f ∈ fields,
        exifKey f ∈ extractedKeys caps app src meta hash exif) := by
  refine ⟨⟨?_, ?_, ?_, ?_, ?_, ?_, ?_, ?_⟩, ?_, ?_, ?_⟩
  · exact key_mem_extracted (constProps_subset caps app src meta hash exif
      ("SysDateTimeNow", .timestamp app.now) (by simp [constProps]))
  · exact key_mem_extracted (constProps_subset caps app src meta hash exif
      ("SysCwd", from_opt_path (some (joinPath app.cwd))) (by simp [constProps]))
  · exact key_mem_extracted (pathBasicProps_subset caps app src meta hash exif
      ("SysExt", from_opt_path (extOf src)) (by simp [pathBasicProps]))
  · exact key_mem_extracted (pathBasicProps_subset caps app src meta hash exif
      ("SysDotExt", from_opt_path ((extOf src).map fun e => "." ++ e))
      (by simp [pathBasicProps]))
  · exact key_mem_extracted (pathBasicProps_subset caps app src meta hash exif
      ("SysName", from_opt_path (stemOf src)) (by simp [pathBasicProps]))
  · exact key_mem_extracted (pathBasicProps_subset caps app src meta hash exif
      ("SysFullName", from_opt_path src.getLast?) (by simp [pathBasicProps]))
  · exact key_mem_extracted (pathBasicProps_subset caps app src meta hash exif
      ("SysPath", from_opt_path ((parentOf src).map joinPath))
      (by simp [pathBasicProps]))
  · intro i hi
    have h1 : ("SysPathElem" ++ toString i, from_opt_path src[i]?)
        ∈ componentProps src := by
      unfold componentProps
      exact List.mem_flatMap.mpr ⟨i, List.mem_range.mpr hi, by simp⟩
    have h2 : ("SysPathAncestor" ++ toString (src.length - i - 1),
        from_opt_path (some (joinPath (src.take (i + 1))))) ∈ componentProps src := by
      unfold componentProps
      exact List.mem_flatMap.mpr ⟨i, List.mem_range.mpr hi, by simp⟩
    have h3 : ("SysPathHead" ++ toString i,
        from_opt_path (some (joinPath (src.take (i + 1))))) ∈ componentProps src := by
      unfold componentProps
      exact List.mem_flatMap.mpr ⟨i, List.mem_range.mpr hi, by simp⟩
    exact ⟨key_mem_extracted (componentProps_subset caps app src meta hash exif _ h1),
      key_mem_extracted (componentProps_subset caps app src meta hash exif _ h2),
      key_mem_extracted (componentProps_subset caps app src meta hash exif _ h3)⟩
  · intro m hm
    subst hm
    refine ⟨?_, ?_, ?_, ?_⟩
    · exact key_mem_extracted (metaProps_subset caps app src (.ok m) hash exif
        ("SysDateTimeCreated", from_opt_filetime m.created) (by simp [metaProps]))
    · exact key_mem_extracted (metaProps_subset caps app src (.ok m) hash exif
        ("SysDateTimeModified", from_opt_filetime m.modified) (by simp [metaProps]))
    · exact key_mem_extracted (metaProps_subset caps app src (.ok m) hash exif
        ("SysDateTimeAccessed", from_opt_filetime m.accessed) (by simp [metaProps]))
    · exact key_mem_extracted (metaProps_subset caps app src (.ok m) hash exif
        ("SysSize", .integer m.size) (by simp [metaProps]))
  · intro hex hh
    subst hh
    exact key_mem_extracted (hashProps_subset caps app src meta (some (some hex)) exif
      ("SysSha1", .text hex) (by simp [hashProps]))
  · intro fields hf f hmemf
    subst hf
    have hpr : (exifKey f, convertExifValue caps f.tag f.value)
        ∈ exifProps caps (some fields) := by
      unfold exifProps
      exact List.mem_map.mpr ⟨f, hmemf, rfl⟩
    exact key_mem_extracted
      (exifProps_subset caps app src meta hash (some fields) _ hpr)

def c8Caps : Caps := ⟨fun _ => none⟩

def c8App : AppCtx := ⟨⟨0⟩, ["home"]⟩

def c8Meta : MetaData :=
  { created := some ⟨1⟩, modified := some ⟨2⟩, accessed := none, size := 42 }

/-- C8 witness: a readable two-component file with successful metadata and
hashing but no EXIF segment still gets its path keys, metadata keys and
hash key. -/
theorem c8_extraction_witness :
    ((Except.ok c8Meta : Except Unit MetaData) = .ok c8Meta
      ∧ (some (some "abc") : Option (Option String)) = some (some "abc")
      ∧ 0 < (["in", "img.jpg"] : List String).length)
    ∧ ("SysDateTimeCreated" ∈ extractedKeys c8Caps c8App ["in", "img.jpg"]
          (.ok c8Meta) (some (some "abc")) none
      ∧ "SysSha1" ∈ extractedKeys c8Caps c8App ["in", "img.jpg"]
          (.ok c8Meta) (some (some "abc")) none
      ∧ ("SysPathElem" ++ toString 0) ∈ extractedKeys c8Caps c8App ["in", "img.jpg"]
          (.ok c8Meta) (some (some "abc")) none) :=
  ⟨⟨rfl, rfl, by decide⟩,
   (c8_extraction_groups_independent c8Caps c8App ["in", "img.jpg"]
      (.ok c8Meta) (some (some "abc")) none).2.1 c8Meta rfl |>.1,
   (c8_extraction_groups_independent c8Caps c8App ["in", "img.jpg"]
      (.ok c8Meta) (some (some "abc")) none).2.2.1 "abc" rfl,
   ((c8_extraction_groups_independent c8Caps c8App ["in", "img.jpg"]
      (.ok c8Meta) (some (some "abc")) none).1.2.2.2.2.2.2.2 0 (by decide)).1⟩
